import Mathlib

/-!
Verification of the Pyrec time-series buffering and retrieval engine
(`src/main.py`) against its natural-language specification.

The Python source is shallow-embedded: wall-clock timestamps and channel
readings (Python floats) are modelled as rationals `ℚ`; the float NaN used
for gap-marker samples is modelled as `none : Option ℚ` (a real reading is
`some v`); the parallel `deque(maxlen=MAX_BUFFER_SIZE)` buffers are lists
with a bounded-append operation; CSV cells are either a numeric cell
(`float(...)` succeeds and returns its value) or a textual cell
(`float(...)` raises `ValueError`); the log-scale slider mapping, which is
genuinely transcendental (`math.exp` / `math.log`), is modelled over `ℝ`.
-/

namespace Pyrec

/-- `MAX_CHANNELS = 8` from the configuration block of `main.py`. -/
def MAX_CHANNELS : ℕ := 8

/-- `MAX_BUFFER_SIZE = 100000`, the shared capacity of the parallel deques. -/
def MAX_BUFFER_SIZE : ℕ := 100000

/-- `TARGET_PLOT_POINTS = 2000`, the downsampling target budget. -/
def TARGET_PLOT_POINTS : ℕ := 2000

/-- `GAP_MULTIPLIER = 20.0` used by the live-capture gap detector. -/
def GAP_MULTIPLIER : ℚ := 20

/-- Model of `datetime.fromtimestamp(ts)`: an opaque calendar-time wrapper
around the unix timestamp, as cached in `self.datetime_cache`. -/
structure DT where
  t : ℚ
deriving DecidableEq, Repr

/-- `datetime.fromtimestamp`. -/
def dtOf (ts : ℚ) : DT := ⟨ts⟩

/-- One CSV cell.  `num q` is a cell on which Python's `float(...)` succeeds
and yields `q`; `text s` is a cell (comment marker, header word, ISO string,
corrupt token) on which `float(...)` raises `ValueError`. -/
inductive Cell where
  | num (q : ℚ)
  | text (s : String)
deriving DecidableEq, Repr

/-- Python `float(cell)` as used by the loader: `some q` on success,
`none` when `ValueError` is raised. -/
def parseFloat : Cell → Option ℚ
  | Cell.num q => some q
  | Cell.text _ => none

/-- Model of `datetime.fromtimestamp(now_ts).strftime("%Y-%m-%d %H:%M:%S.%f")`:
the ISO column written next to each sample.  Its content is never parsed
back by the loader (only column 0 and columns 2.. are read), so only the
fact that it is a non-numeric text cell matters. -/
def isoOf (ts : ℚ) : String := toString ts

/-- Append to a `collections.deque(maxlen := C)`: the new element goes to
the right and, beyond capacity, the oldest (leftmost) element is evicted. -/
def boundedAppend (C : ℕ) (l : List α) (x : α) : List α :=
  let grown := l ++ [x]
  grown.drop (grown.length - C)

/-- The parallel in-memory ring buffer of `SensorApp.__init__`:
`self.timestamps`, `self.datetime_cache` and the per-channel deques
`self.channel_data[i]`, all with the same fixed capacity. -/
structure Buffers where
  timestamps : List ℚ
  datetime_cache : List DT
  channel_data : Fin MAX_CHANNELS → List (Option ℚ)

/-- The buffers at application start: all parallel sequences empty. -/
def emptyBuffers : Buffers :=
  { timestamps := [], datetime_cache := [], channel_data := fun _ => [] }

/-- Appending one sample (timestamp plus one value per channel) to every
parallel sequence of the ring buffer, each through the bounded deque
append, exactly as the per-tick appends in `_capture_data` do. -/
def bufAppend (C : ℕ) (buf : Buffers) (ts : ℚ) (vals : Fin MAX_CHANNELS → Option ℚ) :
    Buffers :=
  { timestamps := boundedAppend C buf.timestamps ts
    datetime_cache := boundedAppend C buf.datetime_cache (dtOf ts)
    channel_data := fun i => boundedAppend C (buf.channel_data i) (vals i) }

/-- A sample to be appended: its timestamp and one (possibly NaN) value per
channel.  Used to state the FIFO-eviction property of the ring buffer. -/
structure Sample where
  ts : ℚ
  vals : Fin MAX_CHANNELS → Option ℚ

/-- Appending a whole sequence of samples to the ring buffer. -/
def appendSamples (C : ℕ) (buf : Buffers) (ss : List Sample) : Buffers :=
  ss.foldl (fun b s => bufAppend C b s.ts s.vals) buf

/-- The CSV row built in `_capture_data`:
`[now_ts, iso_string, raw_1, ..., raw_8]` with
`raw_i = raw_data[i] if i < len(raw_data) else 0.0`. -/
def logRowOf (now_ts : ℚ) (raw_data : List ℚ) : List Cell :=
  Cell.num now_ts :: Cell.text (isoOf now_ts)
    :: (List.range MAX_CHANNELS).map (fun i => Cell.num (raw_data.getD i 0))

/-- Result of one call to `_capture_data`: the updated buffers, the updated
`self.last_capture_time`, and the rows put on `self.log_queue` this tick. -/
structure CaptureResult where
  buf : Buffers
  last_capture_time : ℚ
  queued : List (List Cell)

/-- `SensorApp._capture_data`, one tick.  `connected`/`is_running` gate the
capture, `hasWriter` models `self.csv_writer` being set; `raw_data` is what
`self.data_source.get_data()` returned. -/
def captureData (connected is_running hasWriter : Bool)
    (current_interval_sec last_capture_time now_ts : ℚ)
    (raw_data : List ℚ) (buf : Buffers) : CaptureResult :=
  let time_diff := now_ts - last_capture_time
  if connected = true ∧ is_running = true ∧ current_interval_sec ≤ time_diff then
    let gap_threshold := current_interval_sec * GAP_MULTIPLIER
    let buf1 :=
      if last_capture_time ≠ 0 ∧ gap_threshold < time_diff then
        bufAppend MAX_BUFFER_SIZE buf (now_ts - current_interval_sec / 2) (fun _ => none)
      else buf
    let buf2 := bufAppend MAX_BUFFER_SIZE buf1 now_ts
      (fun i => some (raw_data.getD i 0))
    { buf := buf2
      last_capture_time := now_ts
      queued := if hasWriter = true then [logRowOf now_ts raw_data] else [] }
  else
    { buf := buf, last_capture_time := last_capture_time, queued := [] }

/-! ### History loader (`SensorApp._load_history_worker`) -/

/-- The loader's temporary buffers `temp_ts`, `temp_dt`, `temp_ch` and its
`prev_ts` gap-detection state. -/
structure LoadState where
  temp_ts : List ℚ
  temp_dt : List DT
  temp_ch : Fin MAX_CHANNELS → List (Option ℚ)
  prev_ts : Option ℚ

/-- The loader's initial state. -/
def initLoadState : LoadState :=
  { temp_ts := [], temp_dt := [], temp_ch := fun _ => [], prev_ts := none }

/-- `row[0].startswith("#") or row[0].startswith("Timestamp")`: the
comment/header skip test.  A cell on which `float` succeeds is a numeral
string, which never starts with `#` or `Timestamp`. -/
def cellSkip : Cell → Bool
  | Cell.num _ => false
  | Cell.text s => s.startsWith "#" || s.startsWith "Timestamp"

/-- `float(row[col_idx]) if col_idx < len(row) else 0.0` for channel `i`
(`col_idx = 2 + i`): `none` models the `ValueError` raised on a
non-numeric cell, a missing column is zero-filled.  The guard keeps the
access in bounds, so the `getD` default is never used. -/
def chanVal (row : List Cell) (i : ℕ) : Option ℚ :=
  if 2 + i < row.length then parseFloat (row.getD (2 + i) (Cell.num 0)) else some 0

/-- The index of the first channel whose value raises `ValueError`
(`MAX_CHANNELS` when the whole channel loop completes). -/
def firstFail (row : List Cell) : ℕ :=
  (List.range MAX_CHANNELS).findIdx (fun i => (chanVal row i).isNone)

/-- One iteration of the row loop of `_load_history_worker`.  Mirrors the
source exactly, including the mid-row abort: when channel `k` raises
`ValueError`, `temp_ts`/`temp_dt` and channels `0..k-1` have already been
extended and the `except ValueError: continue` keeps those appends. -/
def processRow (current_interval_sec : ℚ) (st : LoadState) (row : List Cell) :
    LoadState :=
  match row with
  | [] => st
  | c0 :: _ =>
    if cellSkip c0 = true then st
    else
      match parseFloat c0 with
      | none => st
      | some ts_val =>
        let st1 :=
          match st.prev_ts with
          | some p =>
            if current_interval_sec * 5 < ts_val - p then
              { st with
                temp_ts := st.temp_ts ++ [ts_val - 1/1000]
                temp_dt := st.temp_dt ++ [dtOf (ts_val - 1/1000)]
                temp_ch := fun i => st.temp_ch i ++ [none] }
            else st
          | none => st
        let k := firstFail row
        let st2 := { st1 with
          temp_ts := st1.temp_ts ++ [ts_val]
          temp_dt := st1.temp_dt ++ [dtOf ts_val] }
        let st3 := { st2 with
          temp_ch := fun i =>
            if (i : ℕ) < k then st2.temp_ch i ++ [some ((chanVal row i).getD 0)]
            else st2.temp_ch i }
        if k = MAX_CHANNELS then { st3 with prev_ts := some ts_val } else st3

/-- Processing all rows of one file, in order. -/
def loadRows (current_interval_sec : ℚ) (st : LoadState) (rows : List (List Cell)) :
    LoadState :=
  rows.foldl (processRow current_interval_sec) st

/-- The whole history replay: keep only files whose date is within the last
3 calendar days (`f_date >= cutoff_date` with
`cutoff_date = (now - timedelta(days=3)).date()`; dates are modelled as
ordinal day numbers `ℤ`) and process their rows in file order. -/
def loadFiles (current_interval_sec : ℚ) (nowDate : ℤ)
    (files : List (ℤ × List (List Cell))) : LoadState :=
  let relevant := files.filter (fun f => decide (nowDate - 3 ≤ f.1))
  relevant.foldl (fun st f => loadRows current_interval_sec st f.2) initLoadState

/-- The final bulk update of `_load_history_worker`: `deque.extend` of each
temporary list into the corresponding bounded buffer. -/
def extendBuffers (buf : Buffers) (st : LoadState) : Buffers :=
  { timestamps := st.temp_ts.foldl (boundedAppend MAX_BUFFER_SIZE) buf.timestamps
    datetime_cache := st.temp_dt.foldl (boundedAppend MAX_BUFFER_SIZE) buf.datetime_cache
    channel_data := fun i =>
      (st.temp_ch i).foldl (boundedAppend MAX_BUFFER_SIZE) (buf.channel_data i) }

/-! ### Persistence log and daily rollover
(`init_daily_log_system`, `check_rollover`) -/

/-- The on-disk log directory: filename ↦ list of CSV rows, in append
order.  `none` (absent key) models `os.path.exists` returning `False`. -/
abbrev FS := List (String × List (List Cell))

/-- `os.path.exists` / reading a file's rows. -/
def fsLookup : FS → String → Option (List (List Cell))
  | [], _ => none
  | e :: t, n => if e.1 = n then some e.2 else fsLookup t n

/-- Creating an empty file (the effect of `open(..., mode='a')` on a
missing path). -/
def fsCreate (fs : FS) (n : String) : FS := fs ++ [(n, [])]

/-- Appending rows to an existing file. -/
def fsAppendRows : FS → String → List (List Cell) → FS
  | [], _, _ => []
  | e :: t, n, rows =>
    if e.1 = n then (e.1, e.2 ++ rows) :: t else e :: fsAppendRows t n rows

/-- `get_daily_filename`: `f"log_{date}.csv"` with the date already
formatted `%Y-%m-%d`. -/
def get_daily_filename (today : String) : String := "log_" ++ today ++ ".csv"

/-- First header line `["# DAILY LOG START", today_str]`. -/
def headerRow1 (today : String) : List Cell :=
  [Cell.text "# DAILY LOG START", Cell.text today]

/-- Second header line
`["Timestamp_Unix", "Timestamp_ISO", "Ch_1", ..., "Ch_8"]`. -/
def headerRow2 : List Cell :=
  Cell.text "Timestamp_Unix" :: Cell.text "Timestamp_ISO"
    :: (List.range MAX_CHANNELS).map (fun i => Cell.text ("Ch_" ++ toString (i + 1)))

/-- The persistence-log state: `self.current_log_date`, the open file
handle (by name; `none` = closed), and the disk contents. -/
structure LogSys where
  current_log_date : Option String
  open_file : Option String
  fs : FS

/-- `SensorApp.init_daily_log_system` (run under `self.file_lock`): set the
current date, open (creating if absent) the daily file in append mode, and
write the two header lines if and only if the file did not exist. -/
def init_daily_log_system (today : String) (sys : LogSys) : LogSys :=
  let fname := get_daily_filename today
  let file_exists := (fsLookup sys.fs fname).isSome
  let fs2 :=
    if file_exists then sys.fs
    else fsAppendRows (fsCreate sys.fs fname) fname [headerRow1 today, headerRow2]
  { current_log_date := some today, open_file := some fname, fs := fs2 }

/-- `SensorApp.check_rollover`: when the observed calendar date differs
from `current_log_date`, close the current file and re-run
`init_daily_log_system` for the new date. -/
def check_rollover (today : String) (sys : LogSys) : LogSys :=
  if some today ≠ sys.current_log_date then
    init_daily_log_system today { sys with open_file := none }
  else sys

/-! ### Downsampler (`_render_plot` step calculation and
`_compute_gap_blueprint`) -/

/-- The stride computation of `_render_plot`:
`step = points_to_render // target_limit if points_to_render > target_limit
else 1; step = max(1, step)`. -/
def stride (points_to_render target_limit : ℕ) : ℕ :=
  let step := if target_limit < points_to_render then points_to_render / target_limit
    else 1
  max 1 step

/-- `itertools.islice(seq, start, end, step)` applied to the already-sliced
range: every `s`-th element starting at index 0. -/
def everyNth (l : List α) (s : ℕ) : List α :=
  match l with
  | [] => []
  | a :: t => a :: everyNth (t.drop (s - 1)) s
termination_by l.length
decreasing_by simp only [List.length_cons, List.length_drop]; omega

/-- The inner loop of `_compute_gap_blueprint`: walking consecutive
rendered samples, inserting `(i, True)` immediately before index `i`
whenever the separation from the previous rendered sample exceeds the gap
threshold.  (Rendered datetimes are represented by their timestamps.) -/
def gapPairsGo (thr prev : ℚ) (rest : List ℚ) (i : ℕ) : List (ℕ × Bool) :=
  match rest with
  | [] => []
  | d :: t => (if thr < d - prev then [(i, true)] else []) ++ (i, false) :: gapPairsGo thr d t (i + 1)

/-- `SensorApp._compute_gap_blueprint`: gap threshold
`current_interval_sec * step * GAP_MULTIPLIER`; returns the expanded
datetime list and the `(index, is_gap)` blueprint. -/
def compute_gap_blueprint (current_interval_sec : ℚ) (step : ℕ)
    (raw_dates : List ℚ) : List ℚ × List (ℕ × Bool) :=
  let gap_threshold := current_interval_sec * (step : ℚ) * GAP_MULTIPLIER
  let expanded_indices :=
    match raw_dates with
    | [] => []
    | d :: rest => (0, false) :: gapPairsGo gap_threshold d rest 1
  let final_dt := expanded_indices.map
    (fun p => if p.2 = true then raw_dates.getD (p.1 - 1) 0 else raw_dates.getD p.1 0)
  (final_dt, expanded_indices)

/-- The number of synthetic break points the blueprint inserts. -/
def numGaps (expanded : List (ℕ × Bool)) : ℕ :=
  expanded.countP (fun p => p.2)

/-! ### Write queue, logging worker, shutdown (`_log_worker`, `on_close`) -/

/-- An entry of `self.log_queue`: a data row, or the `None` sentinel. -/
inductive QItem where
  | row (r : List Cell)
  | sentinel
deriving DecidableEq

/-- `SensorApp._log_worker` run over the queue contents: writes rows in
FIFO order until it dequeues the sentinel, then exits; returns the rows
written and the queue items left unconsumed. -/
def log_worker : List QItem → List (List Cell) × List QItem
  | [] => ([], [])
  | QItem.sentinel :: rest => ([], rest)
  | QItem.row r :: rest =>
    let w := log_worker rest
    (r :: w.1, w.2)

/-- The observable steps of `SensorApp.on_close`, in program order. -/
inductive CloseAction where
  | setNotRunning
  | enqueueSentinel
  | breakToolbarRef
  | disconnectSource
  | saveSettings
  | closeLogFile
  | destroyRoot
  | joinWriter
deriving DecidableEq

/-- `SensorApp.on_close` as its sequence of steps: stop capture, enqueue
the `None` sentinel, break the toolbar back-reference, conditionally
disconnect the source and save settings, close the log file under
`file_lock` if it is open, destroy the root window. -/
def onCloseActions (hasSource saveOnExit fileOpen : Bool) : List CloseAction :=
  [CloseAction.setNotRunning, CloseAction.enqueueSentinel, CloseAction.breakToolbarRef]
    ++ (if hasSource then [CloseAction.disconnectSource] else [])
    ++ (if saveOnExit then [CloseAction.saveSettings] else [])
    ++ (if fileOpen then [CloseAction.closeLogFile] else [])
    ++ [CloseAction.destroyRoot]

/-! ### Logarithmic window mapping (`slider_to_seconds`,
`seconds_to_slider`), over `ℝ` since the source uses `math.exp`/`math.log`. -/

/-- `SLIDER_MIN_SECONDS = 60`. -/
def SLIDER_MIN_SECONDS : ℝ := 60

/-- `SLIDER_MAX_SECONDS = 86400`. -/
def SLIDER_MAX_SECONDS : ℝ := 86400

/-- `self.slider_min_log = math.log(SLIDER_MIN_SECONDS)`. -/
noncomputable def slider_min_log : ℝ := Real.log SLIDER_MIN_SECONDS

/-- `self.slider_max_log = math.log(SLIDER_MAX_SECONDS)`. -/
noncomputable def slider_max_log : ℝ := Real.log SLIDER_MAX_SECONDS

/-- `self.slider_log_range = slider_max_log - slider_min_log`. -/
noncomputable def slider_log_range : ℝ := slider_max_log - slider_min_log

/-- `SensorApp.slider_to_seconds`. -/
noncomputable def slider_to_seconds (slider_val : ℝ) : ℝ :=
  Real.exp (slider_min_log + slider_val / 100 * slider_log_range)

/-- Python 3 `round` (banker's rounding, half to even) composed with
`int(...)`: identical to nearest-integer rounding except at exact
half-integers, where the even neighbour is chosen (`2 * round (x / 2)`
is that even neighbour). -/
noncomputable def pyRound (x : ℝ) : ℤ :=
  if Int.fract x = 1/2 then 2 * round (x / 2) else round x

/-- `SensorApp.seconds_to_slider`: clamp to
`[SLIDER_MIN_SECONDS, SLIDER_MAX_SECONDS]`, invert the log map, round to
the nearest integer control value. -/
noncomputable def seconds_to_slider (seconds : ℝ) : ℤ :=
  let s := max SLIDER_MIN_SECONDS (min SLIDER_MAX_SECONDS seconds)
  pyRound ((Real.log s - slider_min_log) / slider_log_range * 100)

/-! ## Lemmas about the bounded deque append -/

theorem boundedAppend_length (C : ℕ) (l : List α) (x : α) :
    (boundedAppend C l x).length = min (l.length + 1) C := by
  simp only [boundedAppend, List.length_drop, List.length_append, List.length_cons,
    List.length_nil]
  omega

theorem boundedAppend_drop_eq (C : ℕ) (hC : 1 ≤ C) (l : List α) (x : α) :
    boundedAppend C l x = l.drop (l.length + 1 - C) ++ [x] := by
  simp only [boundedAppend, List.length_append, List.length_cons, List.length_nil]
  rw [List.drop_append_of_le_length (by omega)]

theorem boundedAppend_two (C : ℕ) (hC : 2 ≤ C) (l : List α) (x y : α) :
    ∃ p, boundedAppend C (boundedAppend C l x) y = p ++ [x, y] := by
  rw [boundedAppend_drop_eq C (by omega), boundedAppend_drop_eq C (by omega)]
  rw [List.drop_append_of_le_length (by simp; omega)]
  exact ⟨(l.drop (l.length + 1 - C)).drop
      ((l.drop (l.length + 1 - C) ++ [x]).length + 1 - C), by simp⟩

theorem foldl_boundedAppend (C : ℕ) (hC : 1 ≤ C) (xs : List α) :
    ∀ l0 : List α, l0.length ≤ C →
      xs.foldl (boundedAppend C) l0 = (l0 ++ xs).drop (l0.length + xs.length - C) := by
  induction xs with
  | nil => intro l0 h; simp [Nat.sub_eq_zero_of_le h]
  | cons x xs ih =>
    intro l0 h
    have hsplit : List.drop (l0.length + 1 - C) l0 ++ x :: xs
        = List.drop (l0.length + 1 - C) (l0 ++ x :: xs) :=
      (List.drop_append_of_le_length (by omega)).symm
    rw [List.foldl_cons, ih (boundedAppend C l0 x) (by rw [boundedAppend_length]; omega),
      boundedAppend_length, boundedAppend_drop_eq C (by omega), List.append_assoc,
      List.singleton_append, hsplit, List.drop_drop]
    congr 1
    simp only [List.length_cons]
    omega

theorem foldl_boundedAppend_nil (C : ℕ) (hC : 1 ≤ C) (xs : List α) :
    xs.foldl (boundedAppend C) [] = xs.drop (xs.length - C) := by
  simpa using foldl_boundedAppend C hC xs [] (by simp)

theorem appendSamples_timestamps (C : ℕ) (ss : List Sample) :
    ∀ buf : Buffers, (appendSamples C buf ss).timestamps
      = (ss.map Sample.ts).foldl (boundedAppend C) buf.timestamps := by
  induction ss with
  | nil => intro buf; rfl
  | cons s ss ih =>
    intro buf
    simpa [appendSamples] using ih (bufAppend C buf s.ts s.vals)

theorem appendSamples_datetimes (C : ℕ) (ss : List Sample) :
    ∀ buf : Buffers, (appendSamples C buf ss).datetime_cache
      = (ss.map (fun s => dtOf s.ts)).foldl (boundedAppend C) buf.datetime_cache := by
  induction ss with
  | nil => intro buf; rfl
  | cons s ss ih =>
    intro buf
    simpa [appendSamples] using ih (bufAppend C buf s.ts s.vals)

theorem appendSamples_channel (C : ℕ) (ss : List Sample) (i : Fin MAX_CHANNELS) :
    ∀ buf : Buffers, (appendSamples C buf ss).channel_data i
      = (ss.map (fun s => s.vals i)).foldl (boundedAppend C) (buf.channel_data i) := by
  induction ss with
  | nil => intro buf; rfl
  | cons s ss ih =>
    intro buf
    simpa [appendSamples] using ih (bufAppend C buf s.ts s.vals)

/-- **C1.** For every sequence of appends whose length exceeds the buffer
capacity `C`, the ring buffer — the parallel timestamp, datetime and
per-channel sequences — retains exactly the `C` most recent samples in
append order; the oldest entries are evicted first, from every parallel
sequence at the same index (each sequence is the same `drop` of its full
append history), and all sequences end up with equal length `C`. -/
theorem ringbuffer_fifo (C : ℕ) (ss : List Sample) (hC : 0 < C) (h : C < ss.length) :
    (appendSamples C emptyBuffers ss).timestamps
        = (ss.map Sample.ts).drop (ss.length - C) ∧
    (appendSamples C emptyBuffers ss).datetime_cache
        = (ss.map (fun s => dtOf s.ts)).drop (ss.length - C) ∧
    (∀ i, (appendSamples C emptyBuffers ss).channel_data i
        = (ss.map (fun s => s.vals i)).drop (ss.length - C)) ∧
    (appendSamples C emptyBuffers ss).timestamps.length = C ∧
    (appendSamples C emptyBuffers ss).datetime_cache.length = C ∧
    (∀ i, ((appendSamples C emptyBuffers ss).channel_data i).length = C) := by
  have hts := (appendSamples_timestamps C ss emptyBuffers).trans
    (foldl_boundedAppend_nil C hC _)
  have hdt := (appendSamples_datetimes C ss emptyBuffers).trans
    (foldl_boundedAppend_nil C hC _)
  have hch : ∀ i, (appendSamples C emptyBuffers ss).channel_data i
      = (ss.map (fun s => s.vals i)).drop (ss.length - C) := by
    intro i
    have hstep := appendSamples_channel C ss i emptyBuffers
    rw [show emptyBuffers.channel_data i = [] from rfl] at hstep
    rw [hstep, foldl_boundedAppend_nil C hC _, List.length_map]
  refine ⟨by simpa using hts, by simpa using hdt, hch, ?_, ?_, ?_⟩
  · rw [hts]; simp; omega
  · rw [hdt]; simp; omega
  · intro i; rw [hch i]; simp; omega

/-- The worked example of C1: seven samples carrying raw value `i` for
`i = 1..7`. -/
def exampleSamples : List Sample :=
  ([1, 2, 3, 4, 5, 6, 7] : List ℚ).map (fun q => { ts := q, vals := fun _ => some q })

/-- Witness for C1 at capacity 5: appending the samples with values `1..7`
leaves every parallel sequence holding exactly `[3, 4, 5, 6, 7]`. -/
theorem ringbuffer_fifo_witness :
    5 < exampleSamples.length ∧
    (appendSamples 5 emptyBuffers exampleSamples).timestamps = [3, 4, 5, 6, 7] ∧
    (∀ i, (appendSamples 5 emptyBuffers exampleSamples).channel_data i
      = [some 3, some 4, some 5, some 6, some 7]) := by
  have h : 5 < exampleSamples.length := by decide
  have hmain := ringbuffer_fifo 5 exampleSamples (by decide) h
  exact ⟨h, hmain.1.trans (by decide), fun i => (hmain.2.2.1 i).trans rfl⟩

/-! ## Live capture: gap marker and write queue -/

theorem bufAppend_timestamps (C : ℕ) (buf : Buffers) (ts : ℚ)
    (vals : Fin MAX_CHANNELS → Option ℚ) :
    (bufAppend C buf ts vals).timestamps = boundedAppend C buf.timestamps ts := rfl

theorem bufAppend_channel (C : ℕ) (buf : Buffers) (ts : ℚ)
    (vals : Fin MAX_CHANNELS → Option ℚ) (i : Fin MAX_CHANNELS) :
    (bufAppend C buf ts vals).channel_data i
      = boundedAppend C (buf.channel_data i) (vals i) := rfl

theorem captureData_eq_gap (hw : Bool) (interval last now : ℚ) (raw : List ℚ)
    (buf : Buffers) (hgate : interval ≤ now - last) (hne : last ≠ 0)
    (hgap : interval * GAP_MULTIPLIER < now - last) :
    captureData true true hw interval last now raw buf =
      { buf := bufAppend MAX_BUFFER_SIZE
            (bufAppend MAX_BUFFER_SIZE buf (now - interval / 2) (fun _ => none)) now
            (fun i => some (raw.getD i 0))
        last_capture_time := now
        queued := if hw = true then [logRowOf now raw] else [] } := by
  simp only [captureData]
  rw [if_pos (by refine ⟨?_, ?_, hgate⟩ <;> trivial), if_pos ⟨hne, hgap⟩]

theorem captureData_eq_fresh (hw : Bool) (interval now : ℚ) (raw : List ℚ)
    (buf : Buffers) (hgate : interval ≤ now - 0) :
    captureData true true hw interval 0 now raw buf =
      { buf := bufAppend MAX_BUFFER_SIZE buf now (fun i => some (raw.getD i 0))
        last_capture_time := now
        queued := if hw = true then [logRowOf now raw] else [] } := by
  simp only [captureData]
  rw [if_pos (by refine ⟨?_, ?_, hgate⟩ <;> trivial), if_neg (by simp)]

/-- **C2.** During live capture, when the previous capture time is nonzero
and `now - last_capture_time` exceeds `interval * GAP_MULTIPLIER`
(`GAP_MULTIPLIER = 20`), exactly one synthetic marker sample is appended
immediately before the real sample: the two newest buffer entries are the
marker at `now - interval/2` — which lies strictly between the two real
samples' timestamps — with every channel value NaN, followed by the real
sample.  When `last_capture_time = 0` (fresh connection) no marker is
inserted: the tick appends the real sample only. -/
theorem capture_gap_marker (interval last now : ℚ) (raw : List ℚ) (buf : Buffers)
    (hw : Bool) (hpos : 0 < interval) :
    (last ≠ 0 → interval * GAP_MULTIPLIER < now - last →
      ((∃ p, (captureData true true hw interval last now raw buf).buf.timestamps
          = p ++ [now - interval / 2, now]) ∧
       (∀ i, ∃ q, (captureData true true hw interval last now raw buf).buf.channel_data i
          = q ++ [none, some (raw.getD i 0)]) ∧
       last < now - interval / 2 ∧ now - interval / 2 < now)) ∧
    (last = 0 → interval ≤ now →
      captureData true true hw interval last now raw buf
        = { buf := bufAppend MAX_BUFFER_SIZE buf now (fun i => some (raw.getD i 0))
            last_capture_time := now
            queued := if hw = true then [logRowOf now raw] else [] }) := by
  have hgm : interval * GAP_MULTIPLIER = interval * 20 := rfl
  constructor
  · intro hne hgap
    have hgate : interval ≤ now - last := by rw [hgm] at hgap; linarith
    rw [captureData_eq_gap hw interval last now raw buf hgate hne hgap]
    have h2 : 2 ≤ MAX_BUFFER_SIZE := by norm_num [MAX_BUFFER_SIZE]
    refine ⟨?_, ?_, ?_, ?_⟩
    · simp only [bufAppend_timestamps]
      exact boundedAppend_two MAX_BUFFER_SIZE h2 buf.timestamps _ _
    · intro i
      simp only [bufAppend_channel]
      exact boundedAppend_two MAX_BUFFER_SIZE h2 (buf.channel_data i) _ _
    · rw [hgm] at hgap; linarith
    · linarith
  · intro hlast hgate
    subst hlast
    exact captureData_eq_fresh hw interval now raw buf (by linarith)

/-- Witness for C2 at `interval = 1`, `last_capture_time = 10`,
`now = 100`: the gap fires and the marker at `99.5` sits immediately
before the real sample. -/
theorem capture_gap_marker_witness :
    ∃ p, (captureData true true true 1 10 100 [1, 2, 3, 4, 5, 6, 7, 8]
        emptyBuffers).buf.timestamps = p ++ [100 - 1 / 2, 100] :=
  ((capture_gap_marker 1 10 100 [1, 2, 3, 4, 5, 6, 7, 8] emptyBuffers true
    (by norm_num)).1 (by norm_num) (by norm_num [GAP_MULTIPLIER])).1

/-- **C10.** Synthetic gap-marker samples are never persisted: on every
capture tick at most one row is put on the write queue, and any queued row
is exactly the real sample's row `logRowOf now raw` (unix timestamp, ISO
text, and the raw channel values) — never a NaN marker row.  The marker,
when inserted, goes only to the in-memory buffers. -/
theorem markers_not_persisted (connected is_running hw : Bool)
    (interval last now : ℚ) (raw : List ℚ) (buf : Buffers) :
    (captureData connected is_running hw interval last now raw buf).queued.length ≤ 1 ∧
    ∀ r ∈ (captureData connected is_running hw interval last now raw buf).queued,
      r = logRowOf now raw := by
  by_cases hc : connected = true ∧ is_running = true ∧ interval ≤ now - last
  · cases hw <;> simp [captureData, hc]
  · simp [captureData, hc]

/-! ## Logarithmic window mapping -/

theorem slider_log_lt : Real.log SLIDER_MIN_SECONDS < Real.log SLIDER_MAX_SECONDS :=
  Real.log_lt_log (by norm_num [SLIDER_MIN_SECONDS])
    (by norm_num [SLIDER_MIN_SECONDS, SLIDER_MAX_SECONDS])

theorem slider_log_range_pos : 0 < slider_log_range := by
  have h := slider_log_lt
  simp only [slider_log_range, slider_max_log, slider_min_log]
  linarith

theorem slider_to_seconds_zero : slider_to_seconds 0 = SLIDER_MIN_SECONDS := by
  simp only [slider_to_seconds, zero_div, zero_mul, add_zero, slider_min_log]
  exact Real.exp_log (by norm_num [SLIDER_MIN_SECONDS])

theorem slider_to_seconds_hundred : slider_to_seconds 100 = SLIDER_MAX_SECONDS := by
  have harg : slider_min_log + (100:ℝ) / 100 * slider_log_range = slider_max_log := by
    simp only [slider_log_range]
    norm_num
  simp only [slider_to_seconds]
  rw [harg, slider_max_log]
  exact Real.exp_log (by norm_num [SLIDER_MAX_SECONDS])

theorem slider_to_seconds_mem (v : ℕ) (hv : v ≤ 100) :
    SLIDER_MIN_SECONDS ≤ slider_to_seconds v ∧
      slider_to_seconds v ≤ SLIDER_MAX_SECONDS := by
  have hrange := slider_log_range_pos
  have hfrac0 : (0:ℝ) ≤ (v:ℝ) / 100 := by positivity
  have hfrac1 : (v:ℝ) / 100 ≤ 1 := by
    rw [div_le_one (by norm_num)]
    exact_mod_cast hv
  have hlo : slider_min_log ≤ slider_min_log + (v:ℝ) / 100 * slider_log_range := by
    nlinarith
  have hhi : slider_min_log + (v:ℝ) / 100 * slider_log_range ≤ slider_max_log := by
    have hmul : (v:ℝ) / 100 * slider_log_range ≤ slider_log_range := by nlinarith
    have : slider_min_log + slider_log_range = slider_max_log := by
      simp only [slider_log_range]
      ring
    linarith
  constructor
  · calc SLIDER_MIN_SECONDS = Real.exp slider_min_log := by
          rw [slider_min_log, Real.exp_log (by norm_num [SLIDER_MIN_SECONDS])]
      _ ≤ slider_to_seconds v := Real.exp_le_exp.mpr hlo
  · calc slider_to_seconds v ≤ Real.exp slider_max_log := Real.exp_le_exp.mpr hhi
      _ = SLIDER_MAX_SECONDS := by
          rw [slider_max_log, Real.exp_log (by norm_num [SLIDER_MAX_SECONDS])]

theorem seconds_to_slider_clamp_eq (s : ℝ) :
    seconds_to_slider s
      = seconds_to_slider (max SLIDER_MIN_SECONDS (min SLIDER_MAX_SECONDS s)) := by
  have hmm : (SLIDER_MIN_SECONDS : ℝ) ≤ SLIDER_MAX_SECONDS := by
    norm_num [SLIDER_MIN_SECONDS, SLIDER_MAX_SECONDS]
  have h1 : min SLIDER_MAX_SECONDS (max SLIDER_MIN_SECONDS (min SLIDER_MAX_SECONDS s))
      = max SLIDER_MIN_SECONDS (min SLIDER_MAX_SECONDS s) :=
    min_eq_right (max_le hmm (min_le_left _ _))
  have hc : max SLIDER_MIN_SECONDS
        (min SLIDER_MAX_SECONDS (max SLIDER_MIN_SECONDS (min SLIDER_MAX_SECONDS s)))
      = max SLIDER_MIN_SECONDS (min SLIDER_MAX_SECONDS s) := by
    rw [h1, ← max_assoc, max_self]
  simp only [seconds_to_slider, hc]

theorem slider_roundtrip_exact (v : ℕ) (hv : v ≤ 100) :
    seconds_to_slider (slider_to_seconds v) = (v : ℤ) := by
  have hrange := slider_log_range_pos
  obtain ⟨hsmin, hsmax⟩ := slider_to_seconds_mem v hv
  simp only [seconds_to_slider]
  rw [min_eq_right hsmax, max_eq_right hsmin]
  rw [show slider_to_seconds (v:ℕ)
      = Real.exp (slider_min_log + (v:ℝ) / 100 * slider_log_range) from rfl,
    Real.log_exp]
  have harg : (slider_min_log + (v:ℝ) / 100 * slider_log_range - slider_min_log)
      / slider_log_range * 100 = (v:ℝ) := by
    rw [add_sub_cancel_left, mul_div_assoc, div_self hrange.ne', mul_one,
      div_mul_cancel₀ _ (by norm_num : (100:ℝ) ≠ 0)]
  rw [harg]
  simp only [pyRound]
  rw [if_neg (by rw [Int.fract_natCast]; norm_num), round_natCast]

/-- **C3.** For every integer control value `v ∈ [0, 100]`,
`seconds_to_slider (slider_to_seconds v) = v` exactly (hence within ±1);
`slider_to_seconds 0 = 60` and `slider_to_seconds 100 = 86400`;
`slider_to_seconds` computes
`exp (ln MIN + (v/100) * (ln MAX - ln MIN))`; and `seconds_to_slider`
clamps its input to `[60, 86400]` before inverting and rounding. -/
theorem slider_window_mapping (v : ℕ) (hv : v ≤ 100) :
    seconds_to_slider (slider_to_seconds v) = (v : ℤ) ∧
    |((seconds_to_slider (slider_to_seconds v) : ℝ)) - (v : ℝ)| ≤ 1 ∧
    slider_to_seconds 0 = SLIDER_MIN_SECONDS ∧
    slider_to_seconds 100 = SLIDER_MAX_SECONDS ∧
    slider_to_seconds v
      = Real.exp (Real.log SLIDER_MIN_SECONDS
          + (v : ℝ) / 100 * (Real.log SLIDER_MAX_SECONDS - Real.log SLIDER_MIN_SECONDS)) ∧
    (∀ s : ℝ, seconds_to_slider s
      = seconds_to_slider (max SLIDER_MIN_SECONDS (min SLIDER_MAX_SECONDS s))) := by
  refine ⟨slider_roundtrip_exact v hv, ?_, slider_to_seconds_zero,
    slider_to_seconds_hundred, rfl, seconds_to_slider_clamp_eq⟩
  rw [slider_roundtrip_exact v hv]
  simp

/-- Witness for C3 at `v = 50`: the round trip through the log-scale
window mapping returns exactly 50. -/
theorem slider_window_mapping_witness :
    (50 : ℕ) ≤ 100 ∧ seconds_to_slider (slider_to_seconds (50 : ℕ)) = ((50 : ℕ) : ℤ) :=
  ⟨by norm_num, (slider_window_mapping 50 (by norm_num)).1⟩

/-! ## Downsampler -/

theorem stride_eq (P T : ℕ) : stride P T = max 1 (P / T) := by
  simp only [stride]
  by_cases h : T < P
  · rw [if_pos h]
  · rw [if_neg h]
    push_neg at h
    have hle : P / T ≤ 1 := by
      rcases Nat.eq_zero_or_pos T with hT | hT
      · subst hT; simp
      · exact (Nat.div_le_div_right h).trans (Nat.div_self hT).le
    rw [max_eq_left hle]
    exact max_self 1

theorem everyNth_one (l : List α) : everyNth l 1 = l := by
  induction l with
  | nil => simp [everyNth]
  | cons a t ih => simp [everyNth, ih]

theorem everyNth_length_aux (s : ℕ) (hs : 1 ≤ s) :
    ∀ (n : ℕ) (l : List α), l.length ≤ n →
      (everyNth l s).length = (l.length + s - 1) / s := by
  intro n
  induction n with
  | zero =>
    intro l hl
    have : l = [] := List.eq_nil_of_length_eq_zero (by omega)
    subst this
    simp [everyNth, Nat.div_eq_of_lt (by omega : s - 1 < s)]
  | succ n ih =>
    intro l hl
    match l with
    | [] => simp [everyNth, Nat.div_eq_of_lt (by omega : s - 1 < s)]
    | a :: t =>
      have hdl : (t.drop (s - 1)).length ≤ n := by
        simp only [List.length_drop]
        simp only [List.length_cons] at hl
        omega
      simp only [everyNth, List.length_cons, ih _ hdl, List.length_drop]
      rw [show t.length + 1 + s - 1 = t.length + s by omega,
        Nat.add_div_right _ (by omega)]
      congr 1
      rcases Nat.lt_or_ge t.length (s - 1) with hc | hc
      · rw [show t.length - (s - 1) = 0 from by omega]
        rw [Nat.div_eq_of_lt (by omega), Nat.div_eq_of_lt (by omega)]
      · rw [show t.length - (s - 1) + s - 1 = t.length from by omega]

theorem everyNth_length (s : ℕ) (hs : 1 ≤ s) (l : List α) :
    (everyNth l s).length = (l.length + s - 1) / s :=
  everyNth_length_aux s hs l.length l le_rfl

theorem gapPairsGo_length (thr : ℚ) :
    ∀ (rest : List ℚ) (prev : ℚ) (i : ℕ),
      (gapPairsGo thr prev rest i).length
        = rest.length + numGaps (gapPairsGo thr prev rest i) := by
  intro rest
  induction rest with
  | nil => intro prev i; simp [gapPairsGo, numGaps]
  | cons d t ih =>
    intro prev i
    have hrec := ih d (i + 1)
    simp only [numGaps] at hrec
    by_cases h : thr < d - prev
    · simp [gapPairsGo, if_pos h, numGaps, List.countP_cons, hrec]
      omega
    · simp [gapPairsGo, if_neg h, numGaps, List.countP_cons, hrec]
      omega

theorem gapPairsGo_nogap (thr : ℚ) :
    ∀ (rest : List ℚ) (prev : ℚ) (i : ℕ),
      List.Chain' (fun a b => b - a ≤ thr) (prev :: rest) →
      numGaps (gapPairsGo thr prev rest i) = 0 := by
  intro rest
  induction rest with
  | nil => intro prev i _; simp [gapPairsGo, numGaps]
  | cons d t ih =>
    intro prev i h
    rw [List.chain'_cons] at h
    have hrec := ih d (i + 1) h.2
    simp only [numGaps] at hrec
    simp [gapPairsGo, if_neg (not_lt.mpr h.1), numGaps, List.countP_cons, hrec]

theorem blueprint_length (interval : ℚ) (step : ℕ) (dates : List ℚ) :
    (compute_gap_blueprint interval step dates).1.length
      = dates.length + numGaps (compute_gap_blueprint interval step dates).2 := by
  cases dates with
  | nil => simp [compute_gap_blueprint, numGaps]
  | cons d rest =>
    have h := gapPairsGo_length (interval * (step : ℚ) * GAP_MULTIPLIER) rest d 1
    simp only [numGaps] at h
    simp [compute_gap_blueprint, numGaps, List.countP_cons, h]
    omega

theorem blueprint_nogap (interval : ℚ) (step : ℕ) (dates : List ℚ)
    (h : List.Chain' (fun a b => b - a ≤ interval * (step : ℚ) * GAP_MULTIPLIER) dates) :
    numGaps (compute_gap_blueprint interval step dates).2 = 0 := by
  cases dates with
  | nil => simp [compute_gap_blueprint, numGaps]
  | cons d rest =>
    have hgo := gapPairsGo_nogap (interval * (step : ℚ) * GAP_MULTIPLIER) rest d 1 h
    simp only [numGaps] at hgo
    simp [compute_gap_blueprint, numGaps, List.countP_cons, hgo]

/-- The concrete range that breaks the claimed render budget: 3999 samples
one second apart (interval 1 s, so no gap anywhere in the range). -/
def cexDates : List ℚ := List.map (fun n : ℕ => (n : ℚ)) (List.range 3999)

/-- **C4, counterexample.** With the selected range `cexDates`
(`P = 3999` evenly spaced timestamps, zero gap markers) and the code's
live-mode target budget `T = TARGET_PLOT_POINTS = 2000`, the stride is
`3999 / 2000 = 1`, so all 3999 points are rendered: the claimed bound
"rendered count ≤ T + (number of gap markers in range)" is false on the
code. -/
theorem downsample_budget_counterexample :
    ¬ ((compute_gap_blueprint 1 (stride cexDates.length TARGET_PLOT_POINTS)
          (everyNth cexDates (stride cexDates.length TARGET_PLOT_POINTS))).1.length
        ≤ TARGET_PLOT_POINTS
          + numGaps (compute_gap_blueprint 1 (stride cexDates.length TARGET_PLOT_POINTS)
              (everyNth cexDates (stride cexDates.length TARGET_PLOT_POINTS))).2) := by
  have hlen : cexDates.length = 3999 := by
    rw [show cexDates = List.map (fun n : ℕ => (n : ℚ)) (List.range 3999) from rfl,
      List.length_map, List.length_range]
  have hstr : stride cexDates.length TARGET_PLOT_POINTS = 1 := by
    rw [hlen, stride_eq]
    norm_num [TARGET_PLOT_POINTS]
  rw [hstr, everyNth_one]
  have hng := blueprint_nogap 1 1 cexDates (by
    rw [show cexDates = List.map (fun n : ℕ => (n : ℚ)) (List.range 3999) from rfl,
      List.chain'_map, show (3999 : ℕ) = Nat.succ 3998 by norm_num,
      List.chain'_range_succ]
    intro m _
    push_cast
    norm_num [GAP_MULTIPLIER])
  have hbl := blueprint_length 1 1 cexDates
  rw [hng] at hbl
  rw [hbl, hng, hlen]
  norm_num [TARGET_PLOT_POINTS]

/-- **C4 (amended).** For every selected index range of size `P` and target
budget `T ≥ 1`, the downsampler computes `stride = max 1 (P / T)` and
emits every stride-th sample (`everyNth`); the stride is 1 whenever
`P ≤ T`; the rendered count equals the strided count plus the number of
blueprint gap insertions, and the strided count is at most `2*T - 1`.
Hence the number of rendered points is at most `2*T - 1` (rather than the
claimed `T`) plus the number of gap markers in the range. -/
theorem downsample_budget_amended (T : ℕ) (hT : 1 ≤ T) (dates : List ℚ) (interval : ℚ) :
    stride dates.length T = max 1 (dates.length / T) ∧
    (dates.length ≤ T → stride dates.length T = 1) ∧
    ((compute_gap_blueprint interval (stride dates.length T)
        (everyNth dates (stride dates.length T))).1.length
      = (everyNth dates (stride dates.length T)).length
        + numGaps (compute_gap_blueprint interval (stride dates.length T)
            (everyNth dates (stride dates.length T))).2) ∧
    (everyNth dates (stride dates.length T)).length ≤ 2 * T - 1 := by
  have hone : dates.length ≤ T → stride dates.length T = 1 := by
    intro h
    have hle : dates.length / T ≤ 1 :=
      (Nat.div_le_div_right h).trans (Nat.div_self (by omega)).le
    rw [stride_eq]
    exact max_eq_left hle
  refine ⟨stride_eq _ T, hone, blueprint_length _ _ _, ?_⟩
  by_cases hPT : dates.length ≤ T
  · rw [hone hPT, everyNth_one]
    omega
  · push_neg at hPT
    have hdiv : 1 ≤ dates.length / T := (Nat.one_le_div_iff (by omega)).mpr (by omega)
    have hs : stride dates.length T = dates.length / T := by
      rw [stride_eq]
      exact max_eq_right hdiv
    have hmod := Nat.div_add_mod dates.length T
    have hmlt : dates.length % T < T := Nat.mod_lt _ (by omega)
    rw [hs, everyNth_length _ hdiv]
    generalize hgen : dates.length / T = s at hdiv hmod ⊢
    have hts : T + s ≤ T * s + 1 := by
      obtain ⟨t, ht⟩ := Nat.exists_eq_add_of_le hT
      obtain ⟨u, hu⟩ := Nat.exists_eq_add_of_le hdiv
      rw [ht, hu, show (1 + t) * (1 + u) + 1 = t * u + (t + u + 2) by ring]
      omega
    have hlt : (dates.length + s - 1) / s < 2 * T := by
      rw [Nat.div_lt_iff_lt_mul (by omega)]
      have h2 : 2 * T * s = 2 * (T * s) := by ring
      rw [h2]
      generalize T * s = q at hts hmod ⊢
      omega
    generalize (dates.length + s - 1) / s = X at hlt ⊢
    omega

/-- Witness for the amended C4 at `T = TARGET_PLOT_POINTS` and a two-point
range. -/
theorem downsample_budget_amended_witness :
    1 ≤ TARGET_PLOT_POINTS ∧
    stride ([0, 100] : List ℚ).length TARGET_PLOT_POINTS
      = max 1 (([0, 100] : List ℚ).length / TARGET_PLOT_POINTS) :=
  ⟨by norm_num [TARGET_PLOT_POINTS],
   (downsample_budget_amended TARGET_PLOT_POINTS (by norm_num [TARGET_PLOT_POINTS])
     [0, 100] 1).1⟩

/-! ## History loader: well-formed rows -/

theorem logRowOf_length (ts : ℚ) (raw : List ℚ) :
    (logRowOf ts raw).length = MAX_CHANNELS + 2 := by
  simp only [logRowOf, List.length_cons, List.length_map, List.length_range]

theorem chanVal_logRowOf (ts : ℚ) (raw : List ℚ) (i : ℕ) (hi : i < MAX_CHANNELS) :
    chanVal (logRowOf ts raw) i = some (raw.getD i 0) := by
  rw [chanVal, if_pos (by rw [logRowOf_length]; omega)]
  rw [show logRowOf ts raw
      = Cell.num ts :: Cell.text (isoOf ts)
        :: (List.range MAX_CHANNELS).map (fun j => Cell.num (raw.getD j 0)) from rfl]
  rw [show 2 + i = i + 1 + 1 from by omega, List.getD_cons_succ, List.getD_cons_succ]
  rw [List.getD_eq_getElem?_getD, List.getElem?_map, List.getElem?_range hi]
  rfl

theorem firstFail_logRowOf (ts : ℚ) (raw : List ℚ) :
    firstFail (logRowOf ts raw) = MAX_CHANNELS := by
  rw [firstFail, List.findIdx_eq_length_of_false, List.length_range]
  intro x hx
  rw [List.mem_range] at hx
  rw [chanVal_logRowOf ts raw x hx]
  rfl

/-- `processRow` on the well-formed row written by `_capture_data`, when
the gap check has a previous timestamp and the persisted gap exceeds
`interval * 5`: the loader appends the synthetic marker (timestamp
`ts - 0.001`, all channels NaN) and then the real sample, to every
parallel sequence, and updates `prev_ts`. -/
theorem processRow_logRow_gap (interval : ℚ) (st : LoadState) (p ts : ℚ) (raw : List ℚ)
    (hprev : st.prev_ts = some p) (hgap : interval * 5 < ts - p) :
    (processRow interval st (logRowOf ts raw)).temp_ts
        = st.temp_ts ++ [ts - 1/1000, ts] ∧
    (processRow interval st (logRowOf ts raw)).temp_dt
        = st.temp_dt ++ [dtOf (ts - 1/1000), dtOf ts] ∧
    (∀ i, (processRow interval st (logRowOf ts raw)).temp_ch i
        = st.temp_ch i ++ [none, some (raw.getD i 0)]) ∧
    (processRow interval st (logRowOf ts raw)).prev_ts = some ts := by
  have hrow : logRowOf ts raw
      = Cell.num ts :: Cell.text (isoOf ts)
        :: (List.range MAX_CHANNELS).map (fun j => Cell.num (raw.getD j 0)) := rfl
  have hff := firstFail_logRowOf ts raw
  have hcv := fun (i : Fin MAX_CHANNELS) => chanVal_logRowOf ts raw i i.isLt
  rw [hrow] at hff hcv
  rw [hrow]
  simp only [processRow, cellSkip, parseFloat, hprev, hff, hgap, if_true, Fin.is_lt,
    Bool.false_eq_true, if_false, ite_true, ite_false, if_pos]
  refine ⟨by simp, by simp, fun i => ?_, by trivial⟩
  simp only [hcv i]
  simp

/-- `processRow` on the well-formed row written by `_capture_data`, for an
arbitrary loader state: whatever the gap check does, the real sample is
appended last to every parallel sequence and `prev_ts` becomes its
timestamp. -/
theorem processRow_logRow_tail (interval : ℚ) (st : LoadState) (ts : ℚ) (raw : List ℚ) :
    (∃ a, (processRow interval st (logRowOf ts raw)).temp_ts = a ++ [ts]) ∧
    (∃ c, (processRow interval st (logRowOf ts raw)).temp_dt = c ++ [dtOf ts]) ∧
    (∀ i, ∃ b, (processRow interval st (logRowOf ts raw)).temp_ch i
        = b ++ [some (raw.getD i 0)]) ∧
    (processRow interval st (logRowOf ts raw)).prev_ts = some ts := by
  have hrow : logRowOf ts raw
      = Cell.num ts :: Cell.text (isoOf ts)
        :: (List.range MAX_CHANNELS).map (fun j => Cell.num (raw.getD j 0)) := rfl
  have hff := firstFail_logRowOf ts raw
  have hcv := fun (i : Fin MAX_CHANNELS) => chanVal_logRowOf ts raw i i.isLt
  rw [hrow] at hff hcv
  rw [hrow]
  simp only [processRow, cellSkip, parseFloat, hff, Fin.is_lt, Bool.false_eq_true,
    if_false, ite_true, ite_false, if_pos]
  cases hprev : st.prev_ts with
  | none =>
    refine ⟨⟨_, rfl⟩, ⟨_, rfl⟩, fun i => ?_, by trivial⟩
    simp only [hcv i]
    exact ⟨_, rfl⟩
  | some p =>
    by_cases hgap : interval * 5 < ts - p
    · simp only [if_pos hgap]
      refine ⟨⟨_, rfl⟩, ⟨_, rfl⟩, fun i => ?_, by trivial⟩
      simp only [hcv i]
      exact ⟨_, rfl⟩
    · simp only [if_neg hgap]
      refine ⟨⟨_, rfl⟩, ⟨_, rfl⟩, fun i => ?_, by trivial⟩
      simp only [hcv i]
      exact ⟨_, rfl⟩

/-! ## C5: replay gap detector vs live gap detector -/

/-- A loader state in the middle of replay: previous persisted timestamp
100 s. -/
def c5st : LoadState :=
  { temp_ts := [], temp_dt := [], temp_ch := fun _ => [], prev_ts := some 100 }

/-- **C5, counterexample.** With `interval = 1` and consecutive persisted
timestamps 100 and 110, the history loader inserts a gap marker (its
threshold is `interval * 5 = 5 < 10`), although the live detector's
threshold `interval * GAP_MULTIPLIER = 20` is *not* exceeded — so the
replay detector does not use the same threshold `interval * M` (M = 20).
Moreover the inserted marker sits at `110 - 0.001`, not at
`now - interval/2 = 109.5`. -/
theorem history_gap_threshold_counterexample :
    (processRow 1 c5st (logRowOf 110 [])).temp_ts = [110 - 1/1000, 110] ∧
    (∀ i, (processRow 1 c5st (logRowOf 110 [])).temp_ch i = [none, some 0]) ∧
    ¬ ((1 : ℚ) * GAP_MULTIPLIER < 110 - 100) ∧
    110 - (1 : ℚ)/1000 ≠ 110 - 1/2 := by
  obtain ⟨h1, -, h3, -⟩ := processRow_logRow_gap 1 c5st 100 110 [] rfl (by norm_num)
  refine ⟨?_, ?_, ?_, ?_⟩
  · rw [h1]
    rfl
  · intro i
    rw [h3 i]
    simp [c5st]
  · norm_num [GAP_MULTIPLIER]
  · norm_num

/-- **C5 (amended).** The replay gap detector synthesizes the same *kind*
of marker as the live one — exactly one synthetic sample with every
channel NaN, timestamped strictly between the two consecutive persisted
rows — but it is not symmetric in its parameters: its threshold is
`interval * 5`, not `interval * GAP_MULTIPLIER` (M = 20), and it places
the marker at `ts - 0.001` rather than `now - interval/2`. -/
theorem history_gap_amended (interval p ts : ℚ) (raw : List ℚ) (st : LoadState)
    (hprev : st.prev_ts = some p) (hgap : interval * 5 < ts - p) (hiv : 1 ≤ interval) :
    (processRow interval st (logRowOf ts raw)).temp_ts
        = st.temp_ts ++ [ts - 1/1000, ts] ∧
    (processRow interval st (logRowOf ts raw)).temp_dt
        = st.temp_dt ++ [dtOf (ts - 1/1000), dtOf ts] ∧
    (∀ i, (processRow interval st (logRowOf ts raw)).temp_ch i
        = st.temp_ch i ++ [none, some (raw.getD i 0)]) ∧
    p < ts - 1/1000 ∧ ts - 1/1000 < ts ∧
    (processRow interval st (logRowOf ts raw)).prev_ts = some ts := by
  obtain ⟨h1, h2, h3, h4⟩ := processRow_logRow_gap interval st p ts raw hprev hgap
  refine ⟨h1, h2, h3, by linarith, by norm_num, h4⟩

/-- Witness for the amended C5 at `interval = 1`, persisted timestamps 100
then 110. -/
theorem history_gap_amended_witness :
    (processRow 1 c5st (logRowOf 110 [])).temp_ts
      = c5st.temp_ts ++ [110 - 1/1000, 110] :=
  (history_gap_amended 1 100 110 [] c5st rfl (by norm_num) (by norm_num)).1

/-! ## C6: persistence round trip -/

theorem extendBuffers_timestamps (buf : Buffers) (st : LoadState) :
    (extendBuffers buf st).timestamps
      = st.temp_ts.foldl (boundedAppend MAX_BUFFER_SIZE) buf.timestamps := rfl

theorem extendBuffers_channel (buf : Buffers) (st : LoadState) (i : Fin MAX_CHANNELS) :
    (extendBuffers buf st).channel_data i
      = (st.temp_ch i).foldl (boundedAppend MAX_BUFFER_SIZE) (buf.channel_data i) := rfl

theorem loadRows_append (interval : ℚ) (st : LoadState) (rs : List (List Cell))
    (r : List Cell) :
    loadRows interval st (rs ++ [r]) = processRow interval (loadRows interval st rs) r := by
  simp [loadRows, List.foldl_append]

theorem loadFiles_append_relevant (interval : ℚ) (nowDate d : ℤ)
    (files0 : List (ℤ × List (List Cell))) (rows : List (List Cell))
    (hd : nowDate - 3 ≤ d) :
    loadFiles interval nowDate (files0 ++ [(d, rows)])
      = loadRows interval (loadFiles interval nowDate files0) rows := by
  simp only [loadFiles, List.filter_append, List.foldl_append]
  have hd2 : nowDate ≤ d + 3 := by omega
  simp [loadRows, hd2]

theorem foldl_boundedAppend_tail (C : ℕ) (hC : 1 ≤ C) (l0 : List α) (a : List α)
    (x : α) :
    ∃ p, (a ++ [x]).foldl (boundedAppend C) l0 = p ++ [x] := by
  rw [List.foldl_append, List.foldl_cons, List.foldl_nil, boundedAppend_drop_eq C hC]
  exact ⟨_, rfl⟩

/-- **C6.** Round trip through persistence: a capture tick at time `ts`
with raw channel values `raw` enqueues exactly the row
`logRowOf ts raw` for the daily log (the write-queue consumer appends
queued rows verbatim and in order, see the C9 worker model); reloading a
history whose files — the last of them within the 3-day look-back window —
end with that row leaves the ring buffer ending with the same unix
timestamp `ts` and the same raw channel values, calibration excluded. -/
theorem persist_reload_roundtrip (interval last ts : ℚ) (raw : List ℚ)
    (buf bufR : Buffers) (nowDate d : ℤ) (files0 : List (ℤ × List (List Cell)))
    (rs : List (List Cell)) (hgate : interval ≤ ts - last) (hwin : nowDate - 3 ≤ d) :
    (captureData true true true interval last ts raw buf).queued = [logRowOf ts raw] ∧
    (∃ p, (extendBuffers bufR (loadFiles interval nowDate
        (files0 ++ [(d, rs ++ [logRowOf ts raw])]))).timestamps = p ++ [ts]) ∧
    (∀ i, ∃ q, (extendBuffers bufR (loadFiles interval nowDate
        (files0 ++ [(d, rs ++ [logRowOf ts raw])]))).channel_data i
      = q ++ [some (raw.getD i 0)]) := by
  have h2big : 1 ≤ MAX_BUFFER_SIZE := by norm_num [MAX_BUFFER_SIZE]
  refine ⟨?_, ?_, ?_⟩
  · simp only [captureData]
    rw [if_pos (by refine ⟨?_, ?_, hgate⟩ <;> trivial)]
    simp
  · rw [loadFiles_append_relevant interval nowDate d files0 _ hwin,
      loadRows_append]
    obtain ⟨⟨a, ha⟩, -, -, -⟩ := processRow_logRow_tail interval
      (loadRows interval (loadFiles interval nowDate files0) rs) ts raw
    obtain ⟨p, hp⟩ := foldl_boundedAppend_tail MAX_BUFFER_SIZE h2big
      bufR.timestamps a ts
    exact ⟨p, by rw [extendBuffers_timestamps, ha, hp]⟩
  · intro i
    rw [loadFiles_append_relevant interval nowDate d files0 _ hwin,
      loadRows_append]
    obtain ⟨-, -, hch, -⟩ := processRow_logRow_tail interval
      (loadRows interval (loadFiles interval nowDate files0) rs) ts raw
    obtain ⟨b, hb⟩ := hch i
    obtain ⟨q, hq⟩ := foldl_boundedAppend_tail MAX_BUFFER_SIZE h2big
      (bufR.channel_data i) b (some (raw.getD i 0))
    exact ⟨q, by rw [extendBuffers_channel, hb, hq]⟩

/-- Witness for C6: a sample at `ts = 10` with values `1..8`, persisted
into the only daily file, dated inside the look-back window. -/
theorem persist_reload_roundtrip_witness :
    (captureData true true true 1 0 10 [1, 2, 3, 4, 5, 6, 7, 8]
        emptyBuffers).queued = [logRowOf 10 [1, 2, 3, 4, 5, 6, 7, 8]] :=
  (persist_reload_roundtrip 1 0 10 [1, 2, 3, 4, 5, 6, 7, 8] emptyBuffers emptyBuffers
    0 0 [] [] (by norm_num) (by norm_num)).1

/-! ## C8: malformed rows during history loading -/

/-- The malformed row exhibiting the partial-append slip: a valid unix
timestamp, an ISO text column, and a channel-1 value on which `float`
raises `ValueError`. -/
def badRow : List Cell :=
  [Cell.num 100, Cell.text "2024-01-01 00:00:00", Cell.text "abc"]

/-- **C8 (code bug).** The claim — every malformed row is skipped *as a
whole*, no partial data enters the replayed buffers and the parallel
sequences remain equal in length — is what the data model requires, but
the code violates it: on `badRow` (valid timestamp, malformed channel
value) `_load_history_worker` has already appended to `temp_ts` and
`temp_dt` when `float('abc')` raises, and `except ValueError: continue`
keeps those appends, so the timestamp sequence ends one element longer
than every channel sequence.  (Loading does continue with the next row,
and rows whose timestamp fails to parse are skipped wholly.) -/
theorem malformed_row_partial_append :
    (processRow 1 initLoadState badRow).temp_ts = [100] ∧
    (processRow 1 initLoadState badRow).temp_dt = [dtOf 100] ∧
    (∀ i, (processRow 1 initLoadState badRow).temp_ch i = []) ∧
    (∀ i, (processRow 1 initLoadState badRow).temp_ts.length
      ≠ ((processRow 1 initLoadState badRow).temp_ch i).length) ∧
    (processRow 1 initLoadState badRow).prev_ts = none := by
  refine ⟨by decide, by decide, by decide, by decide, by decide⟩

/-! ## C7: daily rollover of the persistence log -/

theorem fsLookup_create (fs : FS) (n : String) (h : fsLookup fs n = none) :
    fsLookup (fsCreate fs n) n = some [] := by
  induction fs with
  | nil => simp [fsLookup, fsCreate]
  | cons e t ih =>
    simp only [fsLookup, fsCreate, List.cons_append] at *
    by_cases he : e.1 = n
    · rw [if_pos he] at h
      cases h
    · rw [if_neg he] at h ⊢
      exact ih h

theorem fsLookup_appendRows (fs : FS) (n : String) (rows : List (List Cell)) :
    fsLookup (fsAppendRows fs n rows) n = (fsLookup fs n).map (· ++ rows) := by
  induction fs with
  | nil => simp [fsLookup, fsAppendRows]
  | cons e t ih =>
    simp only [fsAppendRows]
    by_cases he : e.1 = n
    · rw [if_pos he]
      simp [fsLookup, he]
    · rw [if_neg he]
      simp [fsLookup, he, ih]

theorem init_daily_log (today : String) (sys : LogSys) :
    (init_daily_log_system today sys).current_log_date = some today ∧
    (init_daily_log_system today sys).open_file = some (get_daily_filename today) ∧
    (fsLookup sys.fs (get_daily_filename today) = none →
      fsLookup (init_daily_log_system today sys).fs (get_daily_filename today)
        = some [headerRow1 today, headerRow2]) ∧
    (∀ c, fsLookup sys.fs (get_daily_filename today) = some c →
      fsLookup (init_daily_log_system today sys).fs (get_daily_filename today)
        = some c) := by
  refine ⟨rfl, rfl, ?_, ?_⟩
  · intro h
    simp only [init_daily_log_system]
    rw [if_neg (by simp [h])]
    rw [fsLookup_appendRows, fsLookup_create _ _ h]
    rfl
  · intro c hc
    simp only [init_daily_log_system]
    rw [if_pos (by simp [hc])]
    exact hc

/-- **C7.** Daily rollover: whenever the observed current calendar date
differs from the open file's date, `check_rollover` closes the current
file and opens (creating if absent) the file for the new date, and the
two header lines — the `# DAILY LOG START` marker and the column header
`Timestamp_Unix, Timestamp_ISO, Ch_1 .. Ch_8` — are written if and only
if the file did not previously exist: a fresh file holds exactly the two
header rows, an existing file's contents are left untouched. -/
theorem daily_rollover (today : String) (sys : LogSys)
    (h : some today ≠ sys.current_log_date) :
    (check_rollover today sys).current_log_date = some today ∧
    (check_rollover today sys).open_file = some (get_daily_filename today) ∧
    (fsLookup sys.fs (get_daily_filename today) = none →
      fsLookup (check_rollover today sys).fs (get_daily_filename today)
        = some [headerRow1 today, headerRow2]) ∧
    (∀ c, fsLookup sys.fs (get_daily_filename today) = some c →
      fsLookup (check_rollover today sys).fs (get_daily_filename today) = some c) ∧
    headerRow1 today = [Cell.text "# DAILY LOG START", Cell.text today] ∧
    headerRow2 = [Cell.text "Timestamp_Unix", Cell.text "Timestamp_ISO",
      Cell.text "Ch_1", Cell.text "Ch_2", Cell.text "Ch_3", Cell.text "Ch_4",
      Cell.text "Ch_5", Cell.text "Ch_6", Cell.text "Ch_7", Cell.text "Ch_8"] := by
  rw [check_rollover, if_pos h]
  obtain ⟨h1, h2, h3, h4⟩ := init_daily_log today { sys with open_file := none }
  exact ⟨h1, h2, h3, h4, rfl, rfl⟩

/-- A concrete log-system state for the C7 witness: the log for
2025-01-01 is open and no file for 2025-01-02 exists yet. -/
def c7sys : LogSys :=
  { current_log_date := some "2025-01-01"
    open_file := some "log_2025-01-01.csv"
    fs := [("log_2025-01-01.csv", [])] }

/-- Witness for C7: rolling over from 2025-01-01 to 2025-01-02 opens the
new file and writes the two header lines into it. -/
theorem daily_rollover_witness :
    some "2025-01-02" ≠ c7sys.current_log_date ∧
    (check_rollover "2025-01-02" c7sys).current_log_date = some "2025-01-02" ∧
    fsLookup (check_rollover "2025-01-02" c7sys).fs (get_daily_filename "2025-01-02")
      = some [headerRow1 "2025-01-02", headerRow2] := by
  have hne : some "2025-01-02" ≠ c7sys.current_log_date := by decide
  have hmain := daily_rollover "2025-01-02" c7sys hne
  exact ⟨hne, hmain.1, hmain.2.2.1 (by decide)⟩

/-! ## C9: shutdown, sentinel and the writer thread -/

/-- **C9, counterexample.** The shutdown sequence of `on_close` contains
no join of the writer thread at all — in particular the writer is not
joined before the persistence file is closed, contrary to the claim. -/
theorem shutdown_no_join :
    CloseAction.joinWriter ∉ onCloseActions true true true := by decide

/-- **C9 (amended).** At shutdown a sentinel (`None`) is enqueued on the
write queue; the single consumer processes exactly the rows enqueued
before the sentinel, in FIFO order, and exits upon dequeuing the sentinel
(leaving later items unconsumed).  But the shutdown sequence does *not*
join the writer thread: `on_close` enqueues the sentinel and then closes
the persistence file directly (the sentinel enqueue precedes the close,
with no join anywhere), so rows still queued when the file is closed may
fail to be written before process exit. -/
theorem shutdown_amended (rows : List (List Cell)) (rest : List QItem)
    (hasSource saveOnExit fileOpen : Bool) :
    log_worker (rows.map QItem.row ++ QItem.sentinel :: rest) = (rows, rest) ∧
    (∃ pre post, onCloseActions hasSource saveOnExit fileOpen
        = pre ++ CloseAction.enqueueSentinel :: post ∧
        CloseAction.closeLogFile ∉ pre) ∧
    CloseAction.joinWriter ∉ onCloseActions hasSource saveOnExit fileOpen := by
  refine ⟨?_, ?_, ?_⟩
  · induction rows with
    | nil => rfl
    | cons r t ih => simp [log_worker, ih]
  · refine ⟨[CloseAction.setNotRunning],
      CloseAction.breakToolbarRef
        :: ((if hasSource = true then [CloseAction.disconnectSource] else [])
          ++ (if saveOnExit = true then [CloseAction.saveSettings] else [])
          ++ (if fileOpen = true then [CloseAction.closeLogFile] else [])
          ++ [CloseAction.destroyRoot]), ?_, by decide⟩
    cases hasSource <;> cases saveOnExit <;> cases fileOpen <;> rfl
  · cases hasSource <;> cases saveOnExit <;> cases fileOpen <;> decide

end Pyrec
